import Mathlib

/-
  Verification of the electrs indexing/query engine against its
  natural-language specification.

  Shallow embedding of:
    - src/new_index/query.rs  (Query composition layer)
    - src/store.rs            (Store wrapper over the ordered kv engine)
    - src/rest.rs             (REST handlers relevant to pagination,
                               block listing and address parsing)

  Collaborators that live outside the provided sources (ChainQuery,
  Mempool, Daemon internals) are modelled as explicit state records /
  function parameters; where a claim depends on their behaviour, the
  definition is modelled from the specification and marked as such.
-/

namespace Electrs

/-! Basic entities (§3 of the spec). Txids, block hashes and scripthashes
    are opaque identifiers for the query-composition claims; they are
    modelled as natural numbers. -/

abbrev Txid := Nat
abbrev BlockHash := Nat
abbrev Scripthash := Nat

/-- Pair (txid, output-index) identifying a transaction output. -/
structure OutPoint where
  txid : Txid
  vout : Nat
deriving DecidableEq

/-- Pair (height, hash) identifying a confirmed block on the best chain. -/
structure BlockId where
  height : Nat
  hash : BlockHash
deriving DecidableEq

/-- Unspent output as returned by the utxo queries: outpoint plus value. -/
structure Utxo where
  txid : Txid
  vout : Nat
  value : Nat
deriving DecidableEq

/-- Code of `impl From<&Utxo> for OutPoint`: the outpoint of a utxo. -/
def OutPoint.fromUtxo (u : Utxo) : OutPoint := ⟨u.txid, u.vout⟩

/-! ## Mempool mirror (read surface used by Query)

    The Mempool type itself lives in src/new_index/mempool.rs, which is not
    among the provided sources; the fields below are the read surface the
    Query layer (src/new_index/query.rs) uses, modelled from §4.6 of the
    specification. -/

/-- Read surface of the in-memory mempool mirror: the key set of the
    `edges` map (outpoint → spending input) and the per-script unconfirmed
    utxo / history listings. -/
structure Mempool where
  edges : List OutPoint
  utxos : Scripthash → List Utxo
  history : Scripthash → List Txid
  txids : List Txid

/-- Modelled from the spec: `Mempool::has_spend(outpoint)` (§4.6,
    src/new_index/mempool.rs not under the provided sources) returns true
    iff the `edges` map contains the outpoint. -/
def Mempool.has_spend (m : Mempool) (outpoint : OutPoint) : Bool :=
  m.edges.any (fun e => decide (e = outpoint))

/-! ## Query composition layer (src/new_index/query.rs) -/

namespace Query

/-- Code of `Query::utxo` (src/new_index/query.rs lines 49-55): take the
    chain utxos, `retain` those whose outpoint has no mempool spend, then
    `extend` with the mempool utxos. `retain` keeps order and is modelled
    by `List.filter`; `extend` appends. -/
def utxo (chain_utxo : Scripthash → List Utxo) (m : Mempool)
    (scripthash : Scripthash) : List Utxo :=
  let utxos := chain_utxo scripthash
  let utxos := utxos.filter (fun u => ! m.has_spend (OutPoint.fromUtxo u))
  utxos ++ m.utxos scripthash

/-- Wording of the specification for `Query.utxo` (§4.7): start from
    `ChainQuery.utxo(script)`, drop any whose outpoint is in
    `Mempool.edges`, then extend with `Mempool.utxo(script)`. -/
def utxoSpec (chain_utxo : Scripthash → List Utxo) (m : Mempool)
    (scripthash : Scripthash) : List Utxo :=
  ((chain_utxo scripthash).filter
      (fun u => decide (OutPoint.fromUtxo u ∉ m.edges)))
    ++ m.utxos scripthash

end Query

/-- Transaction payloads are opaque to the query-composition layer;
    a transaction is represented by an opaque token. -/
abbrev Transaction := Nat

/-- Raw serialized transaction bytes. -/
abbrev RawTx := List Nat

/-- Fee-rate tokens standing for the opaque `f32` values the node returns;
    the claims only concern their presence, never their arithmetic. -/
abbrev FeeRate := Nat

/-- Spending input as returned by `lookup_spend`. -/
structure SpendingInput where
  txid : Txid
  vin : Nat
deriving DecidableEq

/-- Read surface of ChainQuery used by `Query::history_txids` (C2): the
    confirmed per-script history and the `"C"` tx-confirm row family
    (presence of a txid in the confirmed-transaction index). -/
structure Chain where
  history_txids : Scripthash → List (Txid × BlockId)
  confirmedC : Txid → Bool

/-- Read surface of ChainQuery used by the `lookup_*` operations (C6). -/
structure ChainLookups where
  lookup_txn : Txid → Option Transaction
  lookup_raw_txn : Txid → Option RawTx
  lookup_spend : OutPoint → Option SpendingInput

/-- Read surface of the mempool mirror used by the `lookup_*`
    operations (C6). -/
structure MempoolLookups where
  lookup_txn : Txid → Option Transaction
  lookup_raw_txn : Txid → Option RawTx
  lookup_spend : OutPoint → Option SpendingInput

/-- Node collaborator (the Daemon of src/daemon.rs, outside the provided
    sources): fee estimation and raw-transaction broadcast, as used by
    src/new_index/query.rs. Both are arbitrary functions of the request. -/
structure Daemon where
  estimatesmartfee : Nat → Except String FeeRate
  broadcast_raw : String → Except String Txid

/-- Modelled from the spec: `Mempool::add_by_txid` (§4.7,
    src/new_index/mempool.rs not among the provided sources) fetches the
    transaction from the daemon and inserts it into the mempool mirror;
    modelled as inserting the txid into the mirror's txid set. -/
def Mempool.add_by_txid (m : Mempool) (txid : Txid) : Mempool :=
  { m with txids := txid :: m.txids }

namespace Query

/-- Code of the fixed `CONF_TARGETS` array
    (src/new_index/query.rs lines 13-15). -/
def CONF_TARGETS : List Nat := [2, 3, 4, 6, 10, 20, 144, 504, 1008]

/-- Code of `Query::history_txids` (src/new_index/query.rs lines 57-71):
    confirmed events tagged with `Some` of their BlockId, chained with the
    mempool events tagged with `None`, collected in that order. -/
def history_txids (chain : Chain) (m : Mempool) (scripthash : Scripthash) :
    List (Txid × Option BlockId) :=
  let confirmed_txids :=
    (chain.history_txids scripthash).map (fun p => (p.1, some p.2))
  let mempool_txids :=
    (m.history scripthash).map (fun tx => (tx, (none : Option BlockId)))
  confirmed_txids ++ mempool_txids

/-- Code of `Query::lookup_txn` (src/new_index/query.rs lines 80-84):
    chain lookup first, `or_else` the mempool lookup. -/
def lookup_txn (c : ChainLookups) (m : MempoolLookups) (txid : Txid) :
    Option Transaction :=
  (c.lookup_txn txid).orElse (fun _ => m.lookup_txn txid)

/-- Code of `Query::lookup_raw_txn` (src/new_index/query.rs lines 85-89):
    chain lookup first, `or_else` the mempool lookup. -/
def lookup_raw_txn (c : ChainLookups) (m : MempoolLookups) (txid : Txid) :
    Option RawTx :=
  (c.lookup_raw_txn txid).orElse (fun _ => m.lookup_raw_txn txid)

/-- Code of `Query::lookup_spend` (src/new_index/query.rs lines 98-102):
    chain lookup first, `or_else` the mempool lookup. -/
def lookup_spend (c : ChainLookups) (m : MempoolLookups)
    (outpoint : OutPoint) : Option SpendingInput :=
  (c.lookup_spend outpoint).orElse (fun _ => m.lookup_spend outpoint)

/-- Code of `Query::broadcast_raw` (src/new_index/query.rs lines 40-47):
    forward the hex string to the daemon's broadcaster; on success add the
    returned txid to the mempool mirror and return it; the `?` operator
    returns a daemon error unchanged, leaving the mempool untouched.
    Returns the result together with the resulting mempool state. -/
def broadcast_raw (d : Daemon) (m : Mempool) (txhex : String) :
    Except String Txid × Mempool :=
  match d.broadcast_raw txhex with
  | Except.ok txid => (Except.ok txid, m.add_by_txid txid)
  | Except.error e => (Except.error e, m)

/-- Code of `Query::estimate_fee` (src/new_index/query.rs lines 127-130):
    forward the conf_target to the daemon and turn its result into an
    option with `.ok()`. -/
def estimate_fee (d : Daemon) (conf_target : Nat) : Option FeeRate :=
  (d.estimatesmartfee conf_target).toOption

/-- Code of `Query::estimate_fee_targets`
    (src/new_index/query.rs lines 132-141): query `estimate_fee` on each
    member of `CONF_TARGETS`, keeping the targets for which an estimate
    came back. -/
def estimate_fee_targets (d : Daemon) : List (Nat × FeeRate) :=
  CONF_TARGETS.filterMap (fun conf_target =>
    (estimate_fee d conf_target).map (fun feerate => (conf_target, feerate)))

end Query

/-! ## Store (src/store.rs) -/

namespace Store

/-- Byte string: keys and values of the ordered kv engine. -/
abbrev Bytes := List Nat

/-- Point lookup in the mirror of the kv contents; the most recent `put`
    for a key wins, matching the engine's overwrite semantics. -/
def kvGet (key : Bytes) : List (Bytes × Bytes) → Option Bytes
  | [] => none
  | (k, v) :: rest => if k = key then some v else kvGet key rest

/-- State of the store: logical kv contents plus a counter of full
    compactions performed (`compact_range` does not change kv contents,
    only physical layout, recorded here by the counter). -/
structure State where
  kv : List (Bytes × Bytes)
  compactions : Nat
deriving DecidableEq

/-- Row of the store (src/store.rs lines 11-14): a key/value byte pair. -/
structure Row where
  key : Bytes
  value : Bytes
deriving DecidableEq

/-- Bytewise lexicographic strict order, the default comparator of the
    ordered kv engine (a shorter byte string precedes any extension
    of it). -/
def bytesLt : Bytes → Bytes → Bool
  | [], [] => false
  | [], _ :: _ => true
  | _ :: _, [] => false
  | a :: restA, b :: restB =>
    if a < b then true else if b < a then false else bytesLt restA restB

/-- Loop of `Store::scan` (src/store.rs lines 76-86) over the iterator
    positions from the seek point on: Rust reads `&key[..prefix_len]`,
    which panics (modelled by `none`) when the key is shorter than the
    scanned byte string; on a mismatch it breaks; otherwise it pushes the
    row and advances. -/
def scanLoop (pre : Bytes) : List Row → Option (List Row)
  | [] => some []
  | r :: rest =>
    if r.key.length < pre.length then none
    else if r.key.take pre.length ≠ pre then some []
    else (scanLoop pre rest).map (fun rows => r :: rows)

/-- Code of `Store::scan` (src/store.rs lines 71-88): seek the raw
    iterator to the first key not below `pre` (the db contents being a
    key-sorted row list), then run the push loop; `none` models a Rust
    panic. -/
def scan (db : List Row) (pre : Bytes) : Option (List Row) :=
  scanLoop pre (db.dropWhile (fun r => bytesLt r.key pre))

/-- Key of the full-compaction marker row, `b"F"` (0x46). -/
def markerF : Bytes := [70]

/-- Code of `Store::compact_if_needed` (src/store.rs lines 56-64): if the
    marker key `"F"` is present, return immediately; otherwise run a full
    compaction and then put the marker with an empty value. -/
def compact_if_needed (s : State) : State :=
  if (kvGet markerF s.kv).isSome then s
  else { kv := (markerF, []) :: s.kv, compactions := s.compactions + 1 }

end Store

/-! ## REST handlers (src/rest.rs) -/

namespace Rest

/-- Outcome of a REST handler, keeping the HTTP mapping of src/rest.rs:
    `HttpError::not_found` carries status 404 and `From<String>`
    (used by `bail!` on a plain string and by the `?` operator on a
    `String` error) carries status 400. -/
inductive Resp (α : Type) where
  | ok (v : α)
  | notFound (msg : String)
  | badRequest (msg : String)
deriving DecidableEq

/-- Code of `CHAIN_TXS_PER_PAGE` (src/rest.rs line 35). -/
def CHAIN_TXS_PER_PAGE : Nat := 25

/-- Code of `BLOCK_LIMIT` (src/rest.rs line 37). -/
def BLOCK_LIMIT : Nat := 10

/-- Collection of the transaction page (src/rest.rs lines 592-602): map
    each txid through `Query::lookup_txn` and collect, failing on the
    first missing transaction. -/
def collectTxs (lookup : Txid → Option Transaction) :
    List Txid → Option (List Transaction)
  | [] => some []
  | t :: rest =>
    match lookup t with
    | none => none
    | some tx => (collectTxs lookup rest).map (fun txs => tx :: txs)

/-- Code of the GET `block/<hash>/txs/<start_index>` handler
    (src/rest.rs lines 569-608) after the block's txid list was found:
    reject a start index at or past the txid count with 404; reject one
    that is not a multiple of the page size with 400; otherwise return the
    looked-up page of at most `CHAIN_TXS_PER_PAGE` transactions starting
    at the index, a missing transaction becoming a 400 via
    `From<String>`. -/
def block_txs (txids : List Txid) (lookup : Txid → Option Transaction)
    (start_index : Nat) : Resp (List Transaction) :=
  if start_index ≥ txids.length then
    Resp.notFound "start index out of range"
  else if start_index % CHAIN_TXS_PER_PAGE ≠ 0 then
    Resp.badRequest "start index must be a multipication of 25"
  else
    match collectTxs lookup
        ((txids.drop start_index).take CHAIN_TXS_PER_PAGE) with
    | none => Resp.badRequest "missing tx"
    | some txs => Resp.ok txs

/-- Block header and meta data as served by the block-listing endpoint:
    the previous-block hash drives the backwards walk; `meta` stands for
    the remaining payload (header fields, tx_count, size, weight). -/
structure BlockHM where
  prev_blockhash : BlockHash
  meta : Nat
deriving DecidableEq

/-- Read surface of ChainQuery used by the `blocks` handler: hash of the
    header entry at a height, block-with-meta lookup by hash, and the
    best tip hash. -/
structure ChainBlocks where
  headerByHeight : Nat → Option BlockHash
  getBlockWithMeta : BlockHash → Option BlockHM
  bestHash : BlockHash

/-- All-zero hash marking the genesis predecessor
    (`let zero = [0u8; 32]`, src/rest.rs line 896). -/
def zeroHash : BlockHash := 0

/-- Loop of the `blocks` handler (src/rest.rs lines 897-917): up to the
    remaining fuel, fetch the block at the current hash (404 when
    missing), record it, move to its previous-block hash, and break once
    that hash is the all-zero hash. -/
def blocksLoop (chain : ChainBlocks) : Nat → BlockHash → Resp (List BlockHM)
  | 0, _ => Resp.ok []
  | Nat.succ fuel, h =>
    match chain.getBlockWithMeta h with
    | none => Resp.notFound "Block not found"
    | some bm =>
      if bm.prev_blockhash = zeroHash then Resp.ok [bm]
      else
        match blocksLoop chain fuel bm.prev_blockhash with
        | Resp.ok rows => Resp.ok (bm :: rows)
        | Resp.notFound msg => Resp.notFound msg
        | Resp.badRequest msg => Resp.badRequest msg

/-- Code of the `blocks` handler (src/rest.rs lines 884-919): resolve the
    start hash from the requested height (404 when the height is unknown)
    or from the best tip, then walk at most `BLOCK_LIMIT` blocks
    backwards. -/
def blocks (chain : ChainBlocks) : Option Nat → Resp (List BlockHM)
  | some height =>
    (match chain.headerByHeight height with
      | none => Resp.notFound "Block not found"
      | some h => blocksLoop chain BLOCK_LIMIT h)
  | none => blocksLoop chain BLOCK_LIMIT chain.bestHash

/-- Walk property of a block listing: successive entries follow the
    previous-block links starting from the given hash, and an entry whose
    previous hash is the all-zero hash is the last one. -/
def linkedFrom (chain : ChainBlocks) : BlockHash → List BlockHM → Prop
  | _, [] => True
  | h, bm :: rest =>
    chain.getBlockWithMeta h = some bm
    ∧ (bm.prev_blockhash = zeroHash → rest = [])
    ∧ linkedFrom chain bm.prev_blockhash rest

/-- Concrete two-block chain used to exercise the blocks handler: height
    1 is block 10, whose predecessor is block 5, whose previous hash is
    the zero hash. -/
def exampleChain : ChainBlocks :=
  { headerByHeight := fun height => if height = 1 then some 10 else none,
    getBlockWithMeta := fun h =>
      if h = 10 then some ⟨5, 0⟩ else if h = 5 then some ⟨0, 1⟩ else none,
    bestHash := 10 }

/-- Network tags of the non-liquid build (crate-level `Network` of
    src/chain.rs, mapped from the address's `bitcoin::Network`). -/
inductive Network where
  | mainnet
  | testnet
  | regtest
deriving DecidableEq

/-- Parsed address: its network tag and its locking script bytes. -/
structure Address where
  network : Network
  script_pubkey : List Nat

/-- Code of `address_to_scripthash` (src/rest.rs lines 933-952, non-liquid
    path) after address parsing: the address network must equal the
    configured network, except that a Testnet address is accepted under a
    Regtest configuration; rejection is a 400, acceptance returns
    `compute_script_hash` of the script_pubkey bytes.
    `compute_script_hash` (src/new_index/schema.rs, not among the
    provided sources) is modelled from the spec as an abstract hash
    function parameter standing for SHA-256 of the script bytes. -/
def address_to_scripthash (compute_script_hash : List Nat → List Nat)
    (addr : Address) (network : Network) : Resp (List Nat) :=
  if ¬ (addr.network = network
      ∨ (addr.network = Network.testnet ∧ network = Network.regtest)) then
    Resp.badRequest "Address on invalid network"
  else
    Resp.ok (compute_script_hash addr.script_pubkey)

end Rest

/-! ## Claims C1 and C8 -/

/-- Membership reading of the modelled `Mempool::has_spend`. -/
theorem Mempool.has_spend_iff (m : Mempool) (op : OutPoint) :
    m.has_spend op = true ↔ op ∈ m.edges := by
  unfold Mempool.has_spend
  rw [List.any_eq_true]
  constructor
  · rintro ⟨e, he, hdec⟩
    have he' : e = op := of_decide_eq_true hdec
    rwa [he'] at he
  · intro h
    exact ⟨op, h, by simp⟩

/-- C1: for every scripthash, `Query.utxo(scripthash)` equals the result
    of taking the chain utxos, removing every utxo whose outpoint has a
    mempool spend (`Mempool.has_spend` true, i.e. the outpoint is in
    `edges`), and then appending `Mempool.utxo(scripthash)`; with the
    membership characterization of the result. -/
theorem query_utxo_correct (chain_utxo : Scripthash → List Utxo)
    (m : Mempool) (scripthash : Scripthash) :
    Query.utxo chain_utxo m scripthash = Query.utxoSpec chain_utxo m scripthash
    ∧ ∀ u : Utxo, u ∈ Query.utxo chain_utxo m scripthash ↔
        ((u ∈ chain_utxo scripthash
            ∧ m.has_spend (OutPoint.fromUtxo u) = false)
          ∨ u ∈ m.utxos scripthash) := by
  have hfilter : ∀ u : Utxo,
      (! m.has_spend (OutPoint.fromUtxo u))
        = decide (OutPoint.fromUtxo u ∉ m.edges) := by
    intro u
    by_cases h : OutPoint.fromUtxo u ∈ m.edges
    · simp [h, (Mempool.has_spend_iff m _).mpr h]
    · have hs : m.has_spend (OutPoint.fromUtxo u) = false :=
        Bool.eq_false_iff.mpr (fun ht => h ((Mempool.has_spend_iff m _).mp ht))
      simp [h, hs]
  constructor
  · show List.filter _ _ ++ _ = List.filter _ _ ++ _
    rw [List.filter_congr (fun u _ => hfilter u)]
  · intro u
    show u ∈ List.filter _ _ ++ _ ↔ _
    simp only [List.mem_append, List.mem_filter, Bool.not_eq_true']

/-- Helper: when the marker row is present, compaction returns at once. -/
theorem Store.compact_if_needed_of_marker (s : Store.State)
    (h : (Store.kvGet Store.markerF s.kv).isSome) :
    Store.compact_if_needed s = s := by
  simp [Store.compact_if_needed, h]

/-- C8: Store compaction is idempotent: once the marker `"F"` is present a
    call to `compact_if_needed` leaves the state unchanged; one call makes
    the marker present, and two calls from any state equal one call. -/
theorem compact_if_needed_idempotent (s : Store.State) :
    ((Store.kvGet Store.markerF s.kv).isSome → Store.compact_if_needed s = s)
    ∧ (Store.kvGet Store.markerF (Store.compact_if_needed s).kv).isSome
    ∧ Store.compact_if_needed (Store.compact_if_needed s)
        = Store.compact_if_needed s := by
  by_cases h : (Store.kvGet Store.markerF s.kv).isSome
  · have h1 : Store.compact_if_needed s = s :=
      Store.compact_if_needed_of_marker s h
    exact ⟨fun _ => h1, by rw [h1]; exact h, by rw [h1, h1]⟩
  · have h1 : Store.compact_if_needed s
        = { kv := (Store.markerF, []) :: s.kv,
            compactions := s.compactions + 1 } := by
      simp [Store.compact_if_needed, h]
    have h2 : (Store.kvGet Store.markerF (Store.compact_if_needed s).kv).isSome := by
      rw [h1]
      simp [Store.kvGet]
    exact ⟨fun hc => absurd hc h, h2,
      Store.compact_if_needed_of_marker _ h2⟩

/-- C8 witness: a store already carrying the marker is left unchanged, and
    double application equals single application there. -/
theorem compact_if_needed_idempotent_witness :
    Store.compact_if_needed ⟨[(Store.markerF, [])], 0⟩
        = (⟨[(Store.markerF, [])], 0⟩ : Store.State)
    ∧ Store.compact_if_needed
          (Store.compact_if_needed ⟨[(Store.markerF, [])], 0⟩)
        = Store.compact_if_needed ⟨[(Store.markerF, [])], 0⟩ :=
  ⟨(compact_if_needed_idempotent ⟨[(Store.markerF, [])], 0⟩).1 (by decide),
   (compact_if_needed_idempotent ⟨[(Store.markerF, [])], 0⟩).2.2⟩

/-! ## Claims C2, C4, C5, C6 -/

/-- Helper: an `Except` converts to `some a` exactly when it is `ok a`. -/
theorem except_toOption_eq_some {ε α : Type} (e : Except ε α) (a : α) :
    e.toOption = some a ↔ e = Except.ok a := by
  cases e <;> simp [Except.toOption]

/-- C2 counterexample: with a txid (0) present in both the confirmed
    history and the mempool history of a script, `Query.history_txids`
    returns it twice, so the txid list is not duplicate-free, refuting the
    claim over every pair of chain and mempool states. -/
theorem history_txids_duplicate :
    ¬ (((Query.history_txids
            ⟨fun _ => [(0, ⟨1, 5⟩)], fun t => decide (t = 0)⟩
            ⟨[], fun _ => [], fun _ => [0], []⟩ 0).map Prod.fst).Nodup) := by
  decide

/-- C2 (amended): `Query.history_txids` is the confirmed events tagged with
    their BlockId concatenated with the mempool events tagged with none;
    and whenever the two component histories are duplicate-free, every
    confirmed-history txid is in the index `C` and no mempool txid is,
    the result contains each txid at most once and a txid is tagged
    confirmed (paired with a BlockId) iff it is in `C`. -/
theorem history_txids_amended (chain : Chain) (m : Mempool)
    (scripthash : Scripthash) :
    Query.history_txids chain m scripthash
      = (chain.history_txids scripthash).map (fun p => (p.1, some p.2))
        ++ (m.history scripthash).map (fun tx => (tx, (none : Option BlockId)))
    ∧ ((((chain.history_txids scripthash).map Prod.fst).Nodup →
        (m.history scripthash).Nodup →
        (∀ t, t ∈ (chain.history_txids scripthash).map Prod.fst →
            chain.confirmedC t = true) →
        (∀ t, t ∈ m.history scripthash → chain.confirmedC t = false) →
        ((Query.history_txids chain m scripthash).map Prod.fst).Nodup
        ∧ (∀ t b, (t, some b) ∈ Query.history_txids chain m scripthash →
            chain.confirmedC t = true)
        ∧ (∀ t, (t, (none : Option BlockId)) ∈
              Query.history_txids chain m scripthash →
            chain.confirmedC t = false)
        ∧ (∀ t, t ∈ (Query.history_txids chain m scripthash).map Prod.fst →
            (chain.confirmedC t = true ↔
              ∃ b, (t, some b) ∈ Query.history_txids chain m scripthash)))) := by
  constructor
  · rfl
  · intro hnodup1 hnodup2 hC1 hC2
    have hmapfst : (Query.history_txids chain m scripthash).map Prod.fst
        = (chain.history_txids scripthash).map Prod.fst
          ++ m.history scripthash := by
      show List.map Prod.fst (_ ++ _) = _
      rw [List.map_append, List.map_map, List.map_map]
      have h1 : (Prod.fst ∘ fun p : Txid × BlockId => (p.1, some p.2))
          = Prod.fst := funext (fun p => rfl)
      have h2 : (Prod.fst ∘ fun tx : Txid => (tx, (none : Option BlockId)))
          = id := funext (fun tx => rfl)
      rw [h1, h2, List.map_id]
    have htag1 : ∀ t b, (t, some b) ∈ Query.history_txids chain m scripthash →
        chain.confirmedC t = true := by
      intro t b hmem
      rcases List.mem_append.mp hmem with h | h
      · rcases List.mem_map.mp h with ⟨p, hp, heq⟩
        have hfst : p.1 = t := congrArg Prod.fst heq
        exact hC1 t (hfst ▸ List.mem_map.mpr ⟨p, hp, rfl⟩)
      · rcases List.mem_map.mp h with ⟨tx, _, heq⟩
        simp at heq
    have htag2 : ∀ t, (t, (none : Option BlockId)) ∈
          Query.history_txids chain m scripthash →
        chain.confirmedC t = false := by
      intro t hmem
      rcases List.mem_append.mp hmem with h | h
      · rcases List.mem_map.mp h with ⟨p, _, heq⟩
        simp at heq
      · rcases List.mem_map.mp h with ⟨tx, htx, heq⟩
        have hfst : tx = t := congrArg Prod.fst heq
        exact hC2 t (hfst ▸ htx)
    refine ⟨?_, htag1, htag2, ?_⟩
    · rw [hmapfst]
      refine List.Nodup.append hnodup1 hnodup2 ?_
      intro t ht1 ht2
      have hc1 := hC1 t ht1
      have hc2 := hC2 t ht2
      rw [hc1] at hc2
      exact Bool.noConfusion hc2
    · intro t ht
      rw [hmapfst] at ht
      constructor
      · intro hCt
        rcases List.mem_append.mp ht with h | h
        · rcases List.mem_map.mp h with ⟨p, hp, hfst⟩
          refine ⟨p.2, List.mem_append.mpr (Or.inl ?_)⟩
          exact List.mem_map.mpr ⟨p, hp, by rw [hfst]⟩
        · have := hC2 t h
          rw [hCt] at this
          exact absurd this (by simp)
      · rintro ⟨b, hb⟩
        exact htag1 t b hb

/-- C2 witness: a concrete state with disjoint chain and mempool
    histories where the chain txid is in `C` and the mempool txid is not;
    the composed txid list is duplicate-free. -/
theorem history_txids_amended_witness :
    ((Query.history_txids ⟨fun _ => [(1, ⟨1, 5⟩)], fun t => decide (t = 1)⟩
        ⟨[], fun _ => [], fun _ => [2], []⟩ 0).map Prod.fst).Nodup :=
  ((history_txids_amended ⟨fun _ => [(1, ⟨1, 5⟩)], fun t => decide (t = 1)⟩
      ⟨[], fun _ => [], fun _ => [2], []⟩ 0).2
    (by decide) (by decide) (by decide) (by decide)).1

/-- C4 counterexample: `Query::estimate_fee` performs no membership check
    on the conf_target: with a daemon that answers conf_target 5
    (a target outside the fixed set) it returns an estimate, refuting the
    claim that targets outside the set return `none`. -/
theorem estimate_fee_outside_targets :
    Query.estimate_fee ⟨fun _ => Except.ok 7, fun _ => Except.error "x"⟩ 5
        = some 7
    ∧ 5 ∉ Query.CONF_TARGETS := by
  exact ⟨rfl, by decide⟩

/-- C4 (amended): `Query.estimate_fee` forwards any conf_target to the
    node, returning the node's estimate whenever the call succeeds,
    regardless of membership in the fixed set; `Query.estimate_fee_targets`
    queries exactly the fixed set {2, 3, 4, 6, 10, 20, 144, 504, 1008},
    with a target in its result iff its estimate came back. -/
theorem estimate_fee_forwarding (d : Daemon) (conf_target : Nat)
    (feerate : FeeRate) :
    Query.estimate_fee d conf_target
        = (d.estimatesmartfee conf_target).toOption
    ∧ ((conf_target, feerate) ∈ Query.estimate_fee_targets d ↔
        (conf_target ∈ Query.CONF_TARGETS
          ∧ d.estimatesmartfee conf_target = Except.ok feerate)) := by
  refine ⟨rfl, ?_⟩
  rw [Query.estimate_fee_targets, List.mem_filterMap]
  constructor
  · rintro ⟨a, ha, hsome⟩
    rcases hmap : Query.estimate_fee d a with _ | fr
    · rw [hmap] at hsome
      simp at hsome
    · rw [hmap] at hsome
      simp only [Option.map_some'] at hsome
      injection hsome with hpair
      injection hpair with h1 h2
      subst h1
      subst h2
      refine ⟨ha, ?_⟩
      exact (except_toOption_eq_some _ _).mp hmap
  · rintro ⟨hmem, hok⟩
    refine ⟨conf_target, hmem, ?_⟩
    simp [Query.estimate_fee, hok, Except.toOption]

/-- C5: `Query::broadcast_raw` forwards the hex to the node broadcaster;
    on success with txid T it returns `ok T` and the mempool mirror has
    had T added (so T is in the mirror's txid set) before returning; on
    failure it returns the error and the mempool mirror is unchanged. -/
theorem broadcast_raw_mempool (d : Daemon) (m : Mempool) (txhex : String) :
    (∀ txid, d.broadcast_raw txhex = Except.ok txid →
        (Query.broadcast_raw d m txhex).1 = Except.ok txid
        ∧ (Query.broadcast_raw d m txhex).2 = m.add_by_txid txid
        ∧ txid ∈ (Query.broadcast_raw d m txhex).2.txids)
    ∧ (∀ e, d.broadcast_raw txhex = Except.error e →
        Query.broadcast_raw d m txhex = (Except.error e, m)) := by
  constructor
  · intro txid h
    refine ⟨?_, ?_, ?_⟩ <;>
      simp [Query.broadcast_raw, h, Mempool.add_by_txid]
  · intro e h
    simp [Query.broadcast_raw, h]

/-- C5 witness: a broadcaster accepting with txid 5 yields `ok 5` with 5
    in the mirror, and a rejecting broadcaster yields its error with the
    mirror unchanged. -/
theorem broadcast_raw_mempool_witness :
    (Query.broadcast_raw ⟨fun _ => Except.error "x", fun _ => Except.ok 5⟩
        ⟨[], fun _ => [], fun _ => [], []⟩ "aa").1 = Except.ok 5
    ∧ 5 ∈ (Query.broadcast_raw ⟨fun _ => Except.error "x", fun _ => Except.ok 5⟩
        ⟨[], fun _ => [], fun _ => [], []⟩ "aa").2.txids
    ∧ Query.broadcast_raw ⟨fun _ => Except.error "x", fun _ => Except.error "bad"⟩
        ⟨[], fun _ => [], fun _ => [], []⟩ "aa"
      = (Except.error "bad", ⟨[], fun _ => [], fun _ => [], []⟩) :=
  ⟨((broadcast_raw_mempool ⟨fun _ => Except.error "x", fun _ => Except.ok 5⟩
      ⟨[], fun _ => [], fun _ => [], []⟩ "aa").1 5 rfl).1,
   ((broadcast_raw_mempool ⟨fun _ => Except.error "x", fun _ => Except.ok 5⟩
      ⟨[], fun _ => [], fun _ => [], []⟩ "aa").1 5 rfl).2.2,
   (broadcast_raw_mempool ⟨fun _ => Except.error "x", fun _ => Except.error "bad"⟩
      ⟨[], fun _ => [], fun _ => [], []⟩ "aa").2 "bad" rfl⟩

/-- C6: the three lookup operations consult the chain view first and
    return its result when present; only when the chain view is absent do
    they consult the mempool; so whenever both views hold an entry the
    confirmed result wins. -/
theorem lookup_chain_precedence (c : ChainLookups) (m : MempoolLookups)
    (txid : Txid) (outpoint : OutPoint) :
    (∀ tx, c.lookup_txn txid = some tx →
        Query.lookup_txn c m txid = some tx)
    ∧ (c.lookup_txn txid = none →
        Query.lookup_txn c m txid = m.lookup_txn txid)
    ∧ (∀ raw, c.lookup_raw_txn txid = some raw →
        Query.lookup_raw_txn c m txid = some raw)
    ∧ (c.lookup_raw_txn txid = none →
        Query.lookup_raw_txn c m txid = m.lookup_raw_txn txid)
    ∧ (∀ s, c.lookup_spend outpoint = some s →
        Query.lookup_spend c m outpoint = some s)
    ∧ (c.lookup_spend outpoint = none →
        Query.lookup_spend c m outpoint = m.lookup_spend outpoint) := by
  refine ⟨fun tx h => ?_, fun h => ?_, fun raw h => ?_, fun h => ?_,
    fun s h => ?_, fun h => ?_⟩ <;>
    simp [Query.lookup_txn, Query.lookup_raw_txn, Query.lookup_spend, h,
      Option.orElse]

/-- C6 witness: with a chain view holding a transaction and a spend but no
    raw transaction, and a mempool view holding a raw transaction, each
    operation follows the chain-first rule at concrete inputs. -/
theorem lookup_chain_precedence_witness :
    Query.lookup_txn ⟨fun _ => some 7, fun _ => none, fun _ => some ⟨3, 0⟩⟩
        ⟨fun _ => some 8, fun _ => some [1], fun _ => none⟩ 0 = some 7
    ∧ Query.lookup_raw_txn ⟨fun _ => some 7, fun _ => none, fun _ => some ⟨3, 0⟩⟩
        ⟨fun _ => some 8, fun _ => some [1], fun _ => none⟩ 0 = some [1]
    ∧ Query.lookup_spend ⟨fun _ => some 7, fun _ => none, fun _ => some ⟨3, 0⟩⟩
        ⟨fun _ => some 8, fun _ => some [1], fun _ => none⟩ ⟨0, 0⟩
      = some ⟨3, 0⟩ :=
  ⟨(lookup_chain_precedence ⟨fun _ => some 7, fun _ => none, fun _ => some ⟨3, 0⟩⟩
      ⟨fun _ => some 8, fun _ => some [1], fun _ => none⟩ 0 ⟨0, 0⟩).1 7 rfl,
   (lookup_chain_precedence ⟨fun _ => some 7, fun _ => none, fun _ => some ⟨3, 0⟩⟩
      ⟨fun _ => some 8, fun _ => some [1], fun _ => none⟩ 0 ⟨0, 0⟩).2.2.2.1 rfl,
   (lookup_chain_precedence ⟨fun _ => some 7, fun _ => none, fun _ => some ⟨3, 0⟩⟩
      ⟨fun _ => some 8, fun _ => some [1], fun _ => none⟩ 0 ⟨0, 0⟩).2.2.2.2.1
     ⟨3, 0⟩ rfl⟩

/-! ## Claims C3 and C7 -/

/-- C3: evaluation of `Store::scan` at the failing input: a store holding
    one row whose single-byte key [2] sorts after the two-byte scan byte
    string [1, 0]; the seek lands on that row and slicing its key to two
    bytes is out of bounds, so the scan panics (modelled by `none`)
    instead of returning the empty row list the claim requires. -/
theorem store_scan_panics_on_short_key :
    Store.scan [⟨[2], []⟩] [1, 0] = none := rfl

/-- Sanity check of the embedding: on keys at least as long as the
    scanned byte string, `Store::scan` returns exactly the rows whose key
    begins with it, in the store's ascending key order. -/
theorem store_scan_example :
    Store.scan [⟨[1], [9]⟩, ⟨[1, 0], [8]⟩, ⟨[1, 1], [7]⟩, ⟨[2, 2], [6]⟩] [1]
      = some [⟨[1], [9]⟩, ⟨[1, 0], [8]⟩, ⟨[1, 1], [7]⟩] := rfl

/-- Helper: the page collector preserves length when it succeeds. -/
theorem collectTxs_length (lookup : Txid → Option Transaction) :
    ∀ (l : List Txid) (txs : List Transaction),
      Rest.collectTxs lookup l = some txs → txs.length = l.length := by
  intro l
  induction l with
  | nil =>
    intro txs h
    simp [Rest.collectTxs] at h
    rw [← h]
  | cons t rest ih =>
    intro txs h
    unfold Rest.collectTxs at h
    cases hl : lookup t with
    | none => rw [hl] at h; exact absurd h (by simp)
    | some tx =>
      rw [hl] at h
      cases hr : Rest.collectTxs lookup rest with
      | none => rw [hr] at h; exact absurd h (by simp)
      | some txs0 =>
        rw [hr] at h
        simp only [Option.map_some'] at h
        injection h with h
        rw [← h]
        simp [ih txs0 hr]

/-- C7: the block-transactions page handler returns 404 when the start
    index is at or past the block's transaction count; otherwise 400 when
    the start index is not a multiple of the page size 25; otherwise the
    page of at most 25 transactions beginning at that index. -/
theorem block_txs_pagination (txids : List Txid)
    (lookup : Txid → Option Transaction) (start_index : Nat) :
    (start_index ≥ txids.length →
      Rest.block_txs txids lookup start_index
        = Rest.Resp.notFound "start index out of range")
    ∧ (start_index < txids.length →
       start_index % Rest.CHAIN_TXS_PER_PAGE ≠ 0 →
      Rest.block_txs txids lookup start_index
        = Rest.Resp.badRequest "start index must be a multipication of 25")
    ∧ (start_index < txids.length →
       start_index % Rest.CHAIN_TXS_PER_PAGE = 0 →
       ∀ txs, Rest.collectTxs lookup
            ((txids.drop start_index).take Rest.CHAIN_TXS_PER_PAGE)
          = some txs →
        Rest.block_txs txids lookup start_index = Rest.Resp.ok txs
        ∧ txs.length ≤ Rest.CHAIN_TXS_PER_PAGE) := by
  refine ⟨?_, ?_, ?_⟩
  · intro h
    simp [Rest.block_txs, h]
  · intro h1 h2
    have hge : ¬ (start_index ≥ txids.length) := Nat.not_le.mpr h1
    simp [Rest.block_txs, hge, h2]
  · intro h1 h2 txs hc
    have hge : ¬ (start_index ≥ txids.length) := Nat.not_le.mpr h1
    constructor
    · simp [Rest.block_txs, hge, h2, hc]
    · have hlen := collectTxs_length lookup _ txs hc
      rw [hlen, List.length_take]
      exact Nat.min_le_left _ _

/-- C7 witness: a two-transaction block served from index 0 (the page is
    the whole block), a 404 at start index 5 of the same block, and a 400
    at the non-multiple start index 7 of a thirty-transaction block. -/
theorem block_txs_pagination_witness :
    Rest.block_txs [10, 11] (fun t => some t) 0
        = Rest.Resp.ok [10, 11]
    ∧ Rest.block_txs [10, 11] (fun t => some t) 5
        = Rest.Resp.notFound "start index out of range"
    ∧ Rest.block_txs (List.range 30) (fun t => some t) 7
        = Rest.Resp.badRequest "start index must be a multipication of 25" :=
  ⟨((block_txs_pagination [10, 11] (fun t => some t) 0).2.2
      (by decide) (by decide) [10, 11] rfl).1,
   (block_txs_pagination [10, 11] (fun t => some t) 5).1 (by decide),
   (block_txs_pagination (List.range 30) (fun t => some t) 7).2.1
     (by decide) (by decide)⟩

/-! ## Claims C9 and C10 -/

/-- Helper: a successful run of the blocks walk follows the
    previous-block links, respects the fuel bound, and can end short of
    the fuel only at the zero previous hash. -/
theorem blocksLoop_ok (chain : Rest.ChainBlocks) :
    ∀ (fuel : Nat) (h : BlockHash) (rows : List Rest.BlockHM),
      Rest.blocksLoop chain fuel h = Rest.Resp.ok rows →
      Rest.linkedFrom chain h rows
      ∧ rows.length ≤ fuel
      ∧ (rows.length < fuel →
          ∃ bm, rows.getLast? = some bm
            ∧ bm.prev_blockhash = Rest.zeroHash) := by
  intro fuel
  induction fuel with
  | zero =>
    intro h rows heq
    simp only [Rest.blocksLoop] at heq
    injection heq with heq
    rw [← heq]
    exact ⟨trivial, Nat.le_refl 0, fun hlt => absurd hlt (by simp)⟩
  | succ fuel ih =>
    intro h rows heq
    simp only [Rest.blocksLoop] at heq
    split at heq
    · exact Rest.Resp.noConfusion heq
    · rename_i bm hget
      split at heq
      · rename_i hz
        injection heq with heq
        rw [← heq]
        refine ⟨⟨hget, fun _ => rfl, trivial⟩, by simp, fun _ => ?_⟩
        exact ⟨bm, rfl, hz⟩
      · rename_i hz
        split at heq
        · rename_i rows0 hrec
          injection heq with heq
          rcases ih bm.prev_blockhash rows0 hrec with ⟨hlink, hlen, hstop⟩
          rw [← heq]
          refine ⟨⟨hget, fun hc => absurd hc hz, hlink⟩, by
            simpa using Nat.succ_le_succ hlen, ?_⟩
          intro hlt
          have hlt0 : rows0.length < fuel := by
            simpa using Nat.lt_of_succ_lt_succ hlt
          rcases hstop hlt0 with ⟨bmL, hlast, hzL⟩
          refine ⟨bmL, ?_, hzL⟩
          cases rows0 with
          | nil => exact absurd hlast (by simp)
          | cons x xs => rw [List.getLast?_cons_cons]; exact hlast
        · exact Rest.Resp.noConfusion heq
        · exact Rest.Resp.noConfusion heq

/-- Helper: the blocks walk either succeeds or reports a 404 with the
    message of the missing-block case. -/
theorem blocksLoop_ok_or_notFound (chain : Rest.ChainBlocks) :
    ∀ (fuel : Nat) (h : BlockHash),
      (∃ rows, Rest.blocksLoop chain fuel h = Rest.Resp.ok rows)
      ∨ Rest.blocksLoop chain fuel h
          = Rest.Resp.notFound "Block not found" := by
  intro fuel
  induction fuel with
  | zero =>
    intro h
    exact Or.inl ⟨[], rfl⟩
  | succ fuel ih =>
    intro h
    simp only [Rest.blocksLoop]
    split
    · exact Or.inr rfl
    · rename_i bm hget
      split
      · exact Or.inl ⟨[bm], rfl⟩
      · rcases ih bm.prev_blockhash with ⟨rows0, hrec⟩ | hrec
        · rw [hrec]
          exact Or.inl ⟨bm :: rows0, rfl⟩
        · rw [hrec]
          exact Or.inr rfl

/-- C9: the block-listing handler starts from the requested height (404
    when that height is unknown) or from the best tip; a successful
    result lists at most `BLOCK_LIMIT` (10) blocks following the
    previous-block links, stops early only at the all-zero previous hash,
    and every unsuccessful walk is a 404. -/
theorem blocks_endpoint_walk (chain : Rest.ChainBlocks) :
    (∀ height, chain.headerByHeight height = none →
        Rest.blocks chain (some height)
          = Rest.Resp.notFound "Block not found")
    ∧ (∀ height h, chain.headerByHeight height = some h →
        Rest.blocks chain (some height)
          = Rest.blocksLoop chain Rest.BLOCK_LIMIT h)
    ∧ Rest.blocks chain none
        = Rest.blocksLoop chain Rest.BLOCK_LIMIT chain.bestHash
    ∧ (∀ start rows, Rest.blocks chain start = Rest.Resp.ok rows →
        rows.length ≤ Rest.BLOCK_LIMIT)
    ∧ (∀ fuel h rows, Rest.blocksLoop chain fuel h = Rest.Resp.ok rows →
        Rest.linkedFrom chain h rows
        ∧ (rows.length < fuel →
            ∃ bm, rows.getLast? = some bm
              ∧ bm.prev_blockhash = Rest.zeroHash))
    ∧ (∀ fuel h, (∃ rows, Rest.blocksLoop chain fuel h = Rest.Resp.ok rows)
        ∨ Rest.blocksLoop chain fuel h
            = Rest.Resp.notFound "Block not found") := by
  have hstart : ∀ start rows,
      Rest.blocks chain start = Rest.Resp.ok rows →
      rows.length ≤ Rest.BLOCK_LIMIT := by
    intro start rows hok
    cases start with
    | none =>
      exact (blocksLoop_ok chain Rest.BLOCK_LIMIT chain.bestHash rows hok).2.1
    | some height =>
      simp only [Rest.blocks] at hok
      split at hok
      · exact Rest.Resp.noConfusion hok
      · rename_i h0 hh
        exact (blocksLoop_ok chain Rest.BLOCK_LIMIT h0 rows hok).2.1
  refine ⟨?_, ?_, rfl, hstart, ?_, blocksLoop_ok_or_notFound chain⟩
  · intro height hh
    simp [Rest.blocks, hh]
  · intro height h hh
    simp [Rest.blocks, hh]
  · intro fuel h rows hok
    rcases blocksLoop_ok chain fuel h rows hok with ⟨hlink, _, hstop⟩
    exact ⟨hlink, hstop⟩

/-- C9 witness: on the concrete two-block chain, an unknown start height
    yields a 404, and the walk from height 1 returns both blocks, linked
    and ending at the zero previous hash. -/
theorem blocks_endpoint_walk_witness :
    Rest.blocks Rest.exampleChain (some 0)
        = Rest.Resp.notFound "Block not found"
    ∧ ([⟨5, 0⟩, ⟨0, 1⟩] : List Rest.BlockHM).length ≤ Rest.BLOCK_LIMIT
    ∧ Rest.linkedFrom Rest.exampleChain 10 [⟨5, 0⟩, ⟨0, 1⟩] :=
  ⟨(blocks_endpoint_walk Rest.exampleChain).1 0 rfl,
   (blocks_endpoint_walk Rest.exampleChain).2.2.2.1 (some 1) [⟨5, 0⟩, ⟨0, 1⟩]
     (by decide),
   ((blocks_endpoint_walk Rest.exampleChain).2.2.2.2.1 Rest.BLOCK_LIMIT 10
     [⟨5, 0⟩, ⟨0, 1⟩] (by decide)).1⟩

/-- C10: the address endpoint accepts an address exactly when its network
    equals the configured network or, the single exception, the address is
    Testnet while the configuration is Regtest; acceptance returns the
    script hash (`compute_script_hash`, per spec SHA-256) of the
    script_pubkey bytes, rejection is the invalid-network 400. -/
theorem address_to_scripthash_network
    (compute_script_hash : List Nat → List Nat) (addr : Rest.Address)
    (network : Rest.Network) :
    ((∃ r, Rest.address_to_scripthash compute_script_hash addr network
        = Rest.Resp.ok r) ↔
      (addr.network = network
        ∨ (addr.network = Rest.Network.testnet
            ∧ network = Rest.Network.regtest)))
    ∧ (∀ r, Rest.address_to_scripthash compute_script_hash addr network
          = Rest.Resp.ok r →
        r = compute_script_hash addr.script_pubkey)
    ∧ (addr.network ≠ network →
       ¬ (addr.network = Rest.Network.testnet
            ∧ network = Rest.Network.regtest) →
        Rest.address_to_scripthash compute_script_hash addr network
          = Rest.Resp.badRequest "Address on invalid network") := by
  by_cases hacc : addr.network = network
      ∨ (addr.network = Rest.Network.testnet
          ∧ network = Rest.Network.regtest)
  · have hres : Rest.address_to_scripthash compute_script_hash addr network
        = Rest.Resp.ok (compute_script_hash addr.script_pubkey) := by
      simp [Rest.address_to_scripthash, hacc]
    refine ⟨⟨fun _ => hacc, fun _ => ⟨_, hres⟩⟩, ?_, ?_⟩
    · intro r hr
      rw [hres] at hr
      injection hr with hr
      exact hr.symm
    · intro h1 h2
      rcases hacc with h | h
      · exact absurd h h1
      · exact absurd h h2
  · have hres : Rest.address_to_scripthash compute_script_hash addr network
        = Rest.Resp.badRequest "Address on invalid network" := by
      simp [Rest.address_to_scripthash, hacc]
    refine ⟨⟨?_, fun h => absurd h hacc⟩, ?_, fun _ _ => hres⟩
    · rintro ⟨r, hr⟩
      rw [hres] at hr
      exact Rest.Resp.noConfusion hr
    · intro r hr
      rw [hres] at hr
      exact Rest.Resp.noConfusion hr

/-- C10 witness: a Mainnet address under a Regtest configuration is
    rejected with the invalid-network error, and an accepted Testnet
    address under Regtest returns the hash of its script bytes. -/
theorem address_to_scripthash_network_witness :
    Rest.address_to_scripthash (fun l => l)
        ⟨Rest.Network.mainnet, [1, 2]⟩ Rest.Network.regtest
      = Rest.Resp.badRequest "Address on invalid network"
    ∧ ([1, 2] : List Nat) = (fun l => l) [1, 2] :=
  ⟨(address_to_scripthash_network (fun l => l)
      ⟨Rest.Network.mainnet, [1, 2]⟩ Rest.Network.regtest).2.2
      (by decide) (by decide),
   (address_to_scripthash_network (fun l => l)
      ⟨Rest.Network.testnet, [1, 2]⟩ Rest.Network.regtest).2.1 [1, 2]
      (by decide)⟩

end Electrs
